import Mathlib

/-!
Verification development for the repository analyzer and Q&A agent
(`utils/parser_utils.py`, `utils/qa_agent.py`, `utils/summarizer.py`).

The Python code is shallowly embedded: strings are Lean `String`s and all
string manipulation is done on the underlying character lists so that every
definition evaluates by kernel reduction.  Python dictionaries keyed by
strings are embedded as insertion-ordered association lists, and the file
system is abstracted as the list of walked files (path, size, decoded
content) handed to `analyze_repository` after ignore filtering, since the
directory walk itself performs I/O.
-/

/-- Membership test of `sub` as a contiguous substring of `s`, the embedding
of the Python expression `sub in s` (an empty `sub` is contained in every
string). -/
def startsWithList : List Char → List Char → Bool
  | [], _ => true
  | _ :: _, [] => false
  | a :: as, b :: bs => a == b && startsWithList as bs

def containsSubList (sub : List Char) : List Char → Bool
  | [] => startsWithList sub []
  | c :: cs => startsWithList sub (c :: cs) || containsSubList sub cs

def strContains (s sub : String) : Bool :=
  containsSubList sub.toList s.toList

/-- Embedding of Python `s.lower()` (ASCII case folding suffices for the
paths and keywords this code handles). -/
def lowerStr (s : String) : String := String.mk (s.toList.map Char.toLower)

/-- Embedding of Python `s.startswith(pre)`. -/
def startsWithStr (s pre : String) : Bool := startsWithList pre.toList s.toList

/-- Embedding of Python `s.endswith(suf)`. -/
def endsWithStr (s suf : String) : Bool :=
  startsWithList suf.toList.reverse s.toList.reverse

/-- Embedding of Python `s.split(c)` for a one-character separator: split
keeping empty segments, so the result always has `1 + (number of
separators)` segments. -/
def splitOnChar (c : Char) : List Char → List (List Char)
  | [] => [[]]
  | x :: xs =>
    let r := splitOnChar c xs
    if x = c then [] :: r
    else (x :: r.headD []) :: r.tail

/-- Count of occurrences of a character, the embedding of Python
`s.count(c)`. -/
def countChar (c : Char) (s : String) : Nat := s.toList.count c

/-- Characters stripped by Python `str.strip()` with no argument. -/
def pyIsSpace (c : Char) : Bool :=
  c == ' ' || c == '\t' || c == '\n' || c == '\r' || c == '\x0b' || c == '\x0c'

def pyLStrip (p : Char → Bool) (s : String) : String :=
  String.mk (s.toList.dropWhile p)

def pyRStrip (p : Char → Bool) (s : String) : String :=
  String.mk ((s.toList.reverse.dropWhile p).reverse)

/-- Embedding of Python `str.strip`, parameterized by the stripped-character
predicate (`pyIsSpace` for `strip()`, `(· == '#')` for `strip('#')`). -/
def pyStrip (p : Char → Bool) (s : String) : String := pyRStrip p (pyLStrip p s)

/-- Non-empty components of a POSIX path, the embedding of
`pathlib.Path(path).parts` for the relative paths this analyzer produces
(the root anchor of an absolute path is dropped; it never occurs in the
static ignore tables). -/
def pathParts (path : String) : List String :=
  ((splitOnChar '/' path.toList).map String.mk).filter (fun part => part ≠ "")

/-- Embedding of `pathlib.Path(path).name`: the final path component. -/
def pathName (path : String) : String := (pathParts path).getLastD ""

/-- Index of the last occurrence of a character in a list, if any. -/
def lastIdxOf (c : Char) : List Char → Option Nat
  | [] => none
  | x :: xs =>
    match lastIdxOf c xs with
    | some i => some (i + 1)
    | none => if x = c then some 0 else none

/-- Embedding of `pathlib.Path(path).suffix`: the extension including the
dot, or `""` when the name has no dot, is a pure dot-file, or ends in a
dot. -/
def pathSuffix (path : String) : String :=
  let nameChars := (pathName path).toList
  match lastIdxOf '.' nameChars with
  | none => ""
  | some i =>
    if 0 < i ∧ i < nameChars.length - 1 then String.mk (nameChars.drop i) else ""

/-- Static extension table `CodeParser.supported_extensions`
(parser_utils.py lines 18-49). -/
def supported_extensions : List (String × String) :=
  [(".py", "python"), (".js", "javascript"), (".ts", "typescript"),
   (".jsx", "javascript"), (".tsx", "typescript"), (".java", "java"),
   (".cpp", "cpp"), (".c", "c"), (".h", "c"), (".hpp", "cpp"),
   (".cs", "csharp"), (".php", "php"), (".rb", "ruby"), (".go", "go"),
   (".rs", "rust"), (".swift", "swift"), (".kt", "kotlin"),
   (".scala", "scala"), (".r", "r"), (".sql", "sql"), (".sh", "bash"),
   (".yaml", "yaml"), (".yml", "yaml"), (".json", "json"), (".xml", "xml"),
   (".html", "html"), (".css", "css"), (".md", "markdown"),
   (".txt", "text"), (".rst", "restructuredtext")]

/-- Static ignore-directory set `CodeParser.ignore_dirs`
(parser_utils.py lines 51-57). -/
def ignore_dirs : List String :=
  ["__pycache__", ".git", ".svn", ".hg", "node_modules",
   "venv", "env", ".env", "build", "dist", ".tox",
   "coverage", ".coverage", ".pytest_cache", ".mypy_cache",
   "target", "bin", "obj", ".gradle", ".idea", ".vscode",
   "vendor", "deps", "_build", ".next", ".nuxt"]

/-- Static ignore-file set `CodeParser.ignore_files`
(parser_utils.py lines 59-63). -/
def ignore_files : List String :=
  [".gitignore", ".dockerignore", ".env", ".env.local",
   "package-lock.json", "yarn.lock", "poetry.lock",
   "Pipfile.lock", "composer.lock"]

/-- Static binary-extension set `CodeParser.binary_extensions`
(parser_utils.py lines 65-72). -/
def binary_extensions : List String :=
  [".exe", ".dll", ".so", ".dylib", ".bin", ".dat",
   ".pdf", ".doc", ".docx", ".xls", ".xlsx", ".ppt", ".pptx",
   ".jpg", ".jpeg", ".png", ".gif", ".bmp", ".svg", ".ico",
   ".mp3", ".mp4", ".avi", ".mov", ".wmv", ".flv",
   ".zip", ".rar", ".tar", ".gz", ".7z",
   ".jar", ".war", ".ear", ".pyc", ".pyo", ".pyd"]

/-- Embedding of `CodeParser.should_ignore_path` (parser_utils.py
lines 74-91). -/
def should_ignore_path (path : String) : Bool :=
  (pathParts path).any (fun part => ignore_dirs.contains part) ||
  ignore_files.contains (pathName path) ||
  binary_extensions.contains (lowerStr (pathSuffix path))

/-- Embedding of `CodeParser.get_file_language` (parser_utils.py
lines 93-96). -/
def get_file_language (file_path : String) : Option String :=
  (supported_extensions.lookup (lowerStr (pathSuffix file_path)))

/-- Record of one extracted function (Python dict appended to
`file_info['functions']`); `kind` embeds the `'type'` tag used by the
non-AST strategies. -/
structure FunctionRecord where
  name : String
  line : Nat
  args : List String := []
  kind : String := ""
  deriving Repr, DecidableEq

/-- Record of one extracted class (Python dict appended to
`file_info['classes']`). -/
structure ClassRecord where
  name : String
  line : Nat
  methods : List String := []
  deriving Repr, DecidableEq

/-- Embedding of the per-file analysis dict built by
`CodeParser.analyze_file` (parser_utils.py lines 221-245).  `content` is
`some` exactly when the Python dict carries the optional `'content'` key;
`content_preview` is always present.  The `variables`/`comments` lists and
the `full_path` field play no role in any claim and are omitted. -/
structure FileRecord where
  path : String
  language : Option String
  size : Nat
  lines : Nat
  content_preview : String
  content : Option String
  functions : List FunctionRecord := []
  classes : List ClassRecord := []
  imports : List String := []
  deriving Repr, DecidableEq

/-- Result of one language strategy run (`analyze_python_file`,
`analyze_js_file`, `analyze_java_file`, `analyze_text_file`,
`analyze_generic_file`): the strategies only ever append to the
`functions`/`classes`/`imports` (and comment) lists of the file dict and
never touch its path, size, line count or content fields. -/
structure Extraction where
  functions : List FunctionRecord := []
  classes : List ClassRecord := []
  imports : List String := []
  deriving Repr, DecidableEq

/-- Header extraction of `CodeParser.analyze_text_file` (parser_utils.py
lines 391-405): every markdown line whose stripped form starts with `#`
becomes a pseudo-function whose name is the line stripped of `#` and
whitespace (which is empty for a bare `#` line). -/
def analyze_text_headers (language : Option String) (content : String) :
    List FunctionRecord :=
  if language = some "markdown" then
    ((splitOnChar '\n' content.toList).map String.mk).enum.filterMap
      (fun li =>
        let line := li.2
        if startsWithStr (pyStrip pyIsSpace line) "#" then
          let level := line.length - (pyLStrip (· == '#') line).length
          some { name := pyStrip pyIsSpace (pyStrip (· == '#') line),
                 line := li.1 + 1, args := [], kind := s!"header_h{level}" }
        else none)
  else []

/-- Strategy instance running only the prose/markup header extraction; the
AST/regex strategies for code languages are not modelled (no claim depends
on their output), so they extract nothing here. -/
def markdown_extraction : Option String → String → Extraction :=
  fun language content => { functions := analyze_text_headers language content }

/-- Strategy instance extracting nothing at all, usable wherever a claim is
independent of the extracted functions/classes/imports. -/
def trivial_extraction : Option String → String → Extraction := fun _ _ => {}

/-- Content-retention condition of `CodeParser.analyze_file`
(parser_utils.py lines 236-244): keep full content when the file name
contains "readme" or starts with "license"/"changelog"/"contributing"
(case-insensitively), or the language is prose/markup, or the content is
shorter than 5000 characters. -/
def retains_full_content (file_path : String) (language : Option String)
    (content : String) : Bool :=
  let file_name_lower := lowerStr (pathName file_path)
  strContains file_name_lower "readme" ||
  startsWithStr file_name_lower "license" ||
  startsWithStr file_name_lower "changelog" ||
  startsWithStr file_name_lower "contributing" ||
  (match language with
   | some l => ["markdown", "text", "restructuredtext"].contains l
   | none => false) ||
  content.length < 5000

/-- Modelled from the spec: the content-retention condition as §4.2 words
it, with "readme"/"license"/"changelog"/"contributing" all treated as
case-insensitive substrings of the file name (the code, by contrast, only
treats "readme" as a substring and requires the other three as prefixes).
Used solely to compare the spec's wording against `retains_full_content`. -/
def spec_retains_full_content (file_path : String) (language : Option String)
    (content : String) : Bool :=
  let file_name_lower := lowerStr (pathName file_path)
  strContains file_name_lower "readme" ||
  strContains file_name_lower "license" ||
  strContains file_name_lower "changelog" ||
  strContains file_name_lower "contributing" ||
  (match language with
   | some l => ["markdown", "text", "restructuredtext"].contains l
   | none => false) ||
  content.length < 5000

/-- Embedding of `CodeParser.analyze_file` (parser_utils.py lines 182-264).
The caller supplies the decoded content (`none` when both the utf-8 and
latin-1 decodes fail) and the relative path (computed by `os.path.relpath`
in Python).  `extract` abstracts the per-language strategy dispatch of
lines 247-258, which writes only the extraction lists of the record. -/
def analyze_file (extract : Option String → String → Extraction)
    (file_path rel_path : String) (file_size : Nat)
    (decoded : Option String) : Option FileRecord :=
  if file_size > 1024 * 1024 then none
  else
    match decoded with
    | none => none
    | some content =>
      let language := get_file_language file_path
      let ex := extract language content
      some {
        path := rel_path
        language := language
        size := file_size
        lines := (splitOnChar '\n' content.toList).length
        content_preview :=
          String.mk (content.toList.take 500) ++
            (if content.length > 500 then "..." else "")
        content :=
          if retains_full_content file_path language content then some content
          else none
        functions := ex.functions
        classes := ex.classes
        imports := ex.imports }

/-- Per-language statistics bucket (`analysis['languages'][lang]`). -/
structure LangStats where
  files : Nat
  lines : Nat
  deriving Repr, DecidableEq

/-- Aggregate totals (`analysis['summary']`). -/
structure AnalysisSummary where
  total_lines : Nat
  total_functions : Nat
  total_classes : Nat
  total_imports : Nat
  deriving Repr, DecidableEq

/-- Embedding of the analysis dict returned by
`CodeParser.analyze_repository`; the directory-tree `structure` field is
I/O-derived presentation data no claim touches and is omitted. -/
structure RepositoryAnalysis where
  repository_path : String
  total_files : Nat
  analyzed_files : Nat
  languages : List (String × LangStats)
  files : List FileRecord
  summary : AnalysisSummary
  deriving Repr, DecidableEq

/-- One file surviving the ignore-filtered walk of
`CodeParser.analyze_repository` (lines 128-137): its full path, its path
relative to the repository root, its byte size, and its decoded content
(`none` when undecodable). -/
structure RawFile where
  path : String
  rel_path : String
  size : Nat
  decoded : Option String

/-- Python dict update `languages[lang] = {files+1, lines+n}` with
insertion-order keys (parser_utils.py lines 153-158). -/
def bumpLanguage (lang : String) (n : Nat) :
    List (String × LangStats) → List (String × LangStats)
  | [] => [(lang, ⟨1, n⟩)]
  | (k, s) :: rest =>
    if k = lang then (k, ⟨s.files + 1, s.lines + n⟩) :: rest
    else (k, s) :: bumpLanguage lang n rest

/-- Per-file aggregation step of the analysis loop (parser_utils.py
lines 146-164): a failed analysis (`none`) contributes nothing, a
successful one is appended to `files`, bumps `analyzed_files`, its
language bucket (when it has a language), and the summary totals. -/
def aggregate_file (a : RepositoryAnalysis) (res : Option FileRecord) :
    RepositoryAnalysis :=
  match res with
  | none => a
  | some fi =>
    { a with
      files := a.files ++ [fi]
      analyzed_files := a.analyzed_files + 1
      languages :=
        match fi.language with
        | some lang => bumpLanguage lang fi.lines a.languages
        | none => a.languages
      summary := {
        total_lines := a.summary.total_lines + fi.lines
        total_functions := a.summary.total_functions + fi.functions.length
        total_classes := a.summary.total_classes + fi.classes.length
        total_imports := a.summary.total_imports + fi.imports.length } }

/-- Embedding of `CodeParser.analyze_repository` (parser_utils.py
lines 98-180) from the walk's survivor list onward: `total_files` is the
survivor count, then every file is analyzed independently and aggregated.
Progress callbacks are advisory only and omitted. -/
def analyze_repository (extract : Option String → String → Extraction)
    (repo_path : String) (walked : List RawFile) : RepositoryAnalysis :=
  (walked.map
      (fun rf => analyze_file extract rf.path rf.rel_path rf.size rf.decoded)).foldl
    aggregate_file
    { repository_path := repo_path, total_files := walked.length,
      analyzed_files := 0, languages := [], files := [],
      summary := ⟨0, 0, 0, 0⟩ }

/-- Entry of the function index: `{'file': ..., 'function': ...}`
(qa_agent.py lines 76-80; the redundant `file_info` back-pointer is
omitted). -/
structure FuncEntry where
  file : String
  function : FunctionRecord
  deriving Repr, DecidableEq

/-- Entry of the class index: `{'file': ..., 'class': ...}`
(qa_agent.py lines 88-92). -/
structure ClsEntry where
  file : String
  cls : ClassRecord
  deriving Repr, DecidableEq

/-- One key component as produced by
`RepositorySummarizer.identify_key_components`; only the fields the Q&A
agent reads are embedded. -/
structure Component where
  name : String
  files_count : Nat := 0
  total_lines : Nat := 0
  functions_count : Nat := 0
  classes_count : Nat := 0
  deriving Repr, DecidableEq

/-- Python dict assignment `m[k] = v` on an insertion-ordered dict:
replace the value when the key exists, append otherwise. -/
def dictSet {α : Type} (k : String) (v : α) :
    List (String × α) → List (String × α)
  | [] => [(k, v)]
  | (k', v') :: rest =>
    if k' = k then (k, v) :: rest else (k', v') :: dictSet k v rest

/-- Python `d.setdefault(k, []).append(e)` pattern used by the index
builder: append `e` to the bucket of `k`, creating the bucket if absent. -/
def pushBucket {α : Type} (k : String) (e : α) :
    List (String × List α) → List (String × List α)
  | [] => [(k, [e])]
  | (k', l) :: rest =>
    if k' = k then (k', l ++ [e]) :: rest else (k', l) :: pushBucket k e rest

/-- Bucket of a key in a one-to-many index (empty when the key is
absent). -/
def lookupBucket {α : Type} (m : List (String × List α)) (k : String) :
    List α :=
  (m.lookup k).getD []

/-- Inner loop of `QAAgent._build_search_index` over one file's functions
(qa_agent.py lines 70-80): each non-empty lowercased name gets an entry
carrying the owning file's path. -/
def indexFileFunctions (path : String) (funcs : List FunctionRecord)
    (m : List (String × List FuncEntry)) : List (String × List FuncEntry) :=
  funcs.foldl
    (fun m g =>
      let func_name := lowerStr g.name
      if func_name = "" then m else pushBucket func_name ⟨path, g⟩ m)
    m

/-- Function mapping of `QAAgent._build_search_index` (qa_agent.py
lines 66-80). -/
def build_function_index (files : List FileRecord) :
    List (String × List FuncEntry) :=
  files.foldl (fun m f => indexFileFunctions f.path f.functions m) []

/-- Inner loop of `QAAgent._build_search_index` over one file's classes
(qa_agent.py lines 82-92). -/
def indexFileClasses (path : String) (clss : List ClassRecord)
    (m : List (String × List ClsEntry)) : List (String × List ClsEntry) :=
  clss.foldl
    (fun m c =>
      let cls_name := lowerStr c.name
      if cls_name = "" then m else pushBucket cls_name ⟨path, c⟩ m)
    m

/-- Class mapping of `QAAgent._build_search_index`. -/
def build_class_index (files : List FileRecord) :
    List (String × List ClsEntry) :=
  files.foldl (fun m f => indexFileClasses f.path f.classes m) []

/-- File mapping of `QAAgent._build_search_index` (qa_agent.py
lines 66-68): lowercased path to file record. -/
def build_files_index (files : List FileRecord) :
    List (String × FileRecord) :=
  files.foldl (fun m f => dictSet (lowerStr f.path) f m) []

/-- Component mapping of `QAAgent._build_search_index` (qa_agent.py
lines 94-98). -/
def build_components_index (components : List Component) :
    List (String × Component) :=
  components.foldl (fun m c => dictSet (lowerStr c.name) c m) []

/-- The four lookup tables of `QAAgent.search_index`. -/
structure SearchIndex where
  files : List (String × FileRecord)
  functions : List (String × List FuncEntry)
  classes : List (String × List ClsEntry)
  components : List (String × Component)
  deriving Repr

/-- Embedding of `QAAgent._build_search_index` (qa_agent.py lines 53-98),
from a loaded analysis plus the summary's key components. -/
def build_search_index (analysis : RepositoryAnalysis)
    (key_components : List Component) : SearchIndex where
  files := build_files_index analysis.files
  functions := build_function_index analysis.files
  classes := build_class_index analysis.files
  components := build_components_index key_components

/-- Embedding of the context dict assembled by
`QAAgent._extract_relevant_context`; the pass-through `metadata` field is
omitted. -/
structure QuestionContext where
  type : String
  files : List FileRecord
  functions : List FuncEntry
  classes : List ClsEntry
  components : List Component
  deriving Repr, DecidableEq

/-- Embedding of `QAAgent._extract_relevant_context` (qa_agent.py
lines 138-225): keyword intent classification, entity gathering by
substring match, the readme and documentation overrides (in that order),
and the capped fallback slices when nothing matched. -/
def extract_relevant_context (idx : SearchIndex) (question : String) :
    QuestionContext :=
  let question_lower := lowerStr question
  let ctype0 :=
    if ["function", "method", "def ", "function named"].any
        (fun k => strContains question_lower k) then "function"
    else if ["class", "object", "inheritance"].any
        (fun k => strContains question_lower k) then "class"
    else if ["file", "module", "script"].any
        (fun k => strContains question_lower k) then "file"
    else if ["structure", "architecture", "organization", "folder",
             "directory"].any (fun k => strContains question_lower k) then
      "structure"
    else if ["language", "technology", "framework"].any
        (fun k => strContains question_lower k) then "technology"
    else "general"
  let files1 :=
    (idx.files.filter
        (fun p =>
          (((splitOnChar '/' p.1.toList).map String.mk).filter
              (fun part => part.length > 3)).any
            (fun part => strContains question_lower part))).map (fun p => p.2)
  let ctype1 :=
    if strContains question_lower "readme" then "readme" else ctype0
  let files2 :=
    if strContains question_lower "readme" then
      files1 ++
        (idx.files.filter
            (fun p => strContains (lowerStr p.1) "readme")).map (fun p => p.2)
    else files1
  let docCond :=
    ["documentation", "docs", "doc"].any
      (fun k => strContains question_lower k)
  let ctype2 := if docCond then "documentation" else ctype1
  let files3 :=
    if docCond then
      files2 ++
        (idx.files.filter
            (fun p =>
              ["readme", "doc", "guide", "manual"].any
                (fun d => strContains (lowerStr p.1) d))).map (fun p => p.2)
    else files2
  let funcs :=
    (idx.functions.filter
        (fun p => strContains question_lower p.1 && p.1.length > 3)).foldl
      (fun acc p => acc ++ p.2) []
  let clss :=
    (idx.classes.filter
        (fun p => strContains question_lower p.1 && p.1.length > 3)).foldl
      (fun acc p => acc ++ p.2) []
  let comps :=
    (idx.components.filter
        (fun p => strContains question_lower p.1 && p.1.length > 3)).map
      (fun p => p.2)
  let base : QuestionContext :=
    ⟨ctype2, files3, funcs, clss, comps⟩
  if files3.isEmpty && funcs.isEmpty && clss.isEmpty && comps.isEmpty then
    if ctype2 = "function" then
      { base with
        functions :=
          (((idx.functions.take 10).foldl (fun acc p => acc ++ p.2) []).take
            20) }
    else if ctype2 = "file" then
      { base with files := (idx.files.map (fun p => p.2)).take 15 }
    else if ctype2 = "class" then
      { base with
        classes :=
          (((idx.classes.take 10).foldl (fun acc p => acc ++ p.2) []).take
            15) }
    else base
  else base

/-- Rendering of a file's language for the f-string interpolation of
`_prepare_context_for_llm`: `file_info.get('language', 'unknown')` returns
the stored value even when it is `None`, which Python then renders as
"None". -/
def languageDisplay : Option String → String
  | some l => l
  | none => "None"

/-- The per-file lines of the "Complete File Structure" section of
`QAAgent._prepare_context_for_llm` (qa_agent.py lines 252-257): exactly one
line per record of `analysis['files']`. -/
def file_structure_lines (analysis : RepositoryAnalysis) : List String :=
  analysis.files.map
    (fun fi =>
      s!"- {fi.path} ({languageDisplay fi.language}, {fi.size} bytes, {fi.lines} lines)")

/-- The "Complete File Structure" block appended by
`QAAgent._prepare_context_for_llm` for "structure"/"file" intents
(qa_agent.py lines 246-263): header, one line per analyzed file, then the
total/analyzed counts; nothing is appended for other intents or when no
file was analyzed. -/
def file_structure_section (ctxType : String)
    (analysis : RepositoryAnalysis) : List String :=
  if ctxType = "structure" ∨ ctxType = "file" then
    if analysis.files.isEmpty then []
    else
      "Complete File Structure:" ::
        (file_structure_lines analysis ++
          [s!"\nTotal files: {analysis.total_files}, Analyzed files: {analysis.analyzed_files}",
           ""])
  else []

/-- One entry of `QAAgent.conversation_history` (qa_agent.py
lines 122-126). -/
structure ConvEntry where
  question : String
  answer : String
  context_used : QuestionContext
  deriving Repr, DecidableEq

/-- The body of the `try` block of `QAAgent.answer_question` (qa_agent.py
lines 111-119): context extraction, context rendering and answer
generation in sequence, each of which may raise (the generation step
performs the network call).  The three steps are abstracted as fallible
functions; `extract_relevant_context` above is the pure instance of the
first. -/
def qa_pipeline (ex : String → Except String QuestionContext)
    (prep : QuestionContext → String → Except String String)
    (gen : String → String → Except String String)
    (question : String) : Except String (String × QuestionContext) :=
  match ex question with
  | .error e => .error e
  | .ok ctx =>
    match prep ctx question with
    | .error e => .error e
    | .ok context_text =>
      match gen question context_text with
      | .error e => .error e
      | .ok answer => .ok (answer, ctx)

/-- The context object returned alongside the apology on failure
(qa_agent.py line 136 returns an empty dict `{}`). -/
def empty_question_context : QuestionContext := ⟨"general", [], [], [], []⟩

/-- The apology string of the `except` branch of `QAAgent.answer_question`
(qa_agent.py line 136). -/
def apology_message (e : String) : String :=
  "I\x27m sorry, I encountered an error while processing your question: " ++ e

/-- Embedding of `QAAgent.answer_question` (qa_agent.py lines 100-136):
on success the question/answer pair is appended to the history, which is
then truncated to its last 10 entries; on any internal failure the apology
and an empty context are returned and the history is left untouched.
Returns (answer, context used, new history). -/
def answer_question (ex : String → Except String QuestionContext)
    (prep : QuestionContext → String → Except String String)
    (gen : String → String → Except String String)
    (history : List ConvEntry) (question : String) :
    String × QuestionContext × List ConvEntry :=
  match qa_pipeline ex prep gen question with
  | .ok (answer, ctx) =>
    let h := history ++ [⟨question, answer, ctx⟩]
    let h := if h.length > 10 then h.drop (h.length - 10) else h
    (answer, ctx, h)
  | .error e => (apology_message e, empty_question_context, history)

/-- Conversation history after a sequence of question/answer cycles
starting from a fresh agent (empty history). -/
def run_questions (ex : String → Except String QuestionContext)
    (prep : QuestionContext → String → Except String String)
    (gen : String → String → Except String String)
    (questions : List String) : List ConvEntry :=
  questions.foldl (fun h q => (answer_question ex prep gen h q).2.2) []

/-- Embedding of `calculate_importance_score` inside
`RepositorySummarizer.get_important_files` (summarizer.py lines 120-165).
The score is an integer since the large-file rule subtracts 20. -/
def calculate_importance_score (file_info : FileRecord) : Int :=
  let path := lowerStr file_info.path
  let lines := file_info.lines
  let functions_count := file_info.functions.length
  let classes_count := file_info.classes.length
  let s : Int := 0
  let s :=
    if ["main", "index", "app", "server", "api", "__init__"].any
        (fun k => strContains path k) then s + 50 else s
  let s :=
    if ["readme", "documentation", "doc"].any
        (fun k => strContains path k) then s + 40 else s
  let s :=
    if ["config", "settings", "setup"].any
        (fun k => strContains path k) then s + 30 else s
  let s :=
    if ["requirements.txt", "package.json", "pom.xml", "cargo.toml"].any
        (fun suf => endsWithStr path suf) then s + 35 else s
  let s : Int :=
    match file_info.language with
    | some l =>
      if ["python", "javascript", "typescript", "java", "cpp"].contains l then
        s + 20
      else if ["markdown", "yaml", "json"].contains l then s + 10
      else s
    | none => s
  let s := if lines > 100 then s + Int.ofNat (min (lines / 50) 20) else s
  let s :=
    if functions_count > 0 then s + Int.ofNat (min (functions_count * 3) 30)
    else s
  let s :=
    if classes_count > 0 then s + Int.ofNat (min (classes_count * 5) 25) else s
  let s := if lines > 2000 then s - 20 else s
  let s :=
    if countChar '/' path ≤ 1 || strContains path "/src/" then s + 15 else s
  s

/-- Stable insertion of a file in front of the first already-placed file of
lower-or-equal score: together with `sort_by_score` this reproduces
Python's stable `sort(key=score, reverse=True)` ordering, where an
earlier-enumerated file precedes any equal-scored later one. -/
def insert_by_score (f : FileRecord) : List FileRecord → List FileRecord
  | [] => [f]
  | g :: gs =>
    if calculate_importance_score g ≤ calculate_importance_score f then
      f :: g :: gs
    else g :: insert_by_score f gs

def sort_by_score : List FileRecord → List FileRecord
  | [] => []
  | f :: fs => insert_by_score f (sort_by_score fs)

/-- Embedding of `RepositorySummarizer.get_important_files` (summarizer.py
lines 109-171): the files reordered by descending importance score, ties
keeping their enumeration order. -/
def get_important_files (files : List FileRecord) : List FileRecord :=
  sort_by_score files

theorem splitOnChar_length (c : Char) (l : List Char) :
    (splitOnChar c l).length = 1 + l.count c := by
  induction l with
  | nil => simp [splitOnChar]
  | cons x xs ih =>
    by_cases hx : x = c
    · simp [splitOnChar, hx, ih, List.count_cons]
      omega
    · simp [splitOnChar, hx, ih, List.count_cons]
      omega

theorem analyze_file_some_elim (extract : Option String → String → Extraction)
    (fp rp : String) (size : Nat) (decoded : Option String) (r : FileRecord)
    (h : analyze_file extract fp rp size decoded = some r) :
    ∃ c, decoded = some c ∧
      r = { path := rp
            language := get_file_language fp
            size := size
            lines := (splitOnChar '\n' c.toList).length
            content_preview :=
              String.mk (c.toList.take 500) ++
                (if c.length > 500 then "..." else "")
            content :=
              if retains_full_content fp (get_file_language fp) c then some c
              else none
            functions := (extract (get_file_language fp) c).functions
            classes := (extract (get_file_language fp) c).classes
            imports := (extract (get_file_language fp) c).imports } := by
  unfold analyze_file at h
  by_cases hs : size > 1024 * 1024
  · rw [if_pos hs] at h
    cases h
  · rw [if_neg hs] at h
    cases decoded with
    | none => cases h
    | some c =>
      refine ⟨c, rfl, ?_⟩
      exact (Option.some.inj h).symm

/-- C3: for every successfully analyzed file with decoded content `c`, the
resulting record's `lines` field equals `1` plus the number of newline
characters of `c` (the number of newline-delimited segments), so an empty
file yields `lines = 1`. -/
theorem line_count_is_newlines_plus_one
    (extract : Option String → String → Extraction)
    (fp rp : String) (size : Nat) (decoded : Option String) (r : FileRecord)
    (h : analyze_file extract fp rp size decoded = some r) :
    ∃ c, decoded = some c ∧ r.lines = 1 + c.toList.count '\n' ∧
      (c = "" → r.lines = 1) := by
  obtain ⟨c, hc, hr⟩ := analyze_file_some_elim extract fp rp size decoded r h
  subst hr
  refine ⟨c, hc, by simp [splitOnChar_length], ?_⟩
  intro hce
  subst hce
  simp [splitOnChar_length]

theorem line_count_is_newlines_plus_one_witness :
    ∃ c, (some "ab\ncd" : Option String) = some c ∧
      (FileRecord.mk "a.py" (some "python") 5 2 "ab\ncd" (some "ab\ncd")
          [] [] []).lines = 1 + c.toList.count '\n' ∧
      (c = "" →
        (FileRecord.mk "a.py" (some "python") 5 2 "ab\ncd" (some "ab\ncd")
            [] [] []).lines = 1) :=
  line_count_is_newlines_plus_one trivial_extraction "repo/a.py" "a.py" 5
    (some "ab\ncd") _ rfl

/-- C4: any path one of whose segments is a member of the static
ignore-directory set is classified as ignorable, regardless of its file
name or extension. -/
theorem ignored_directory_segment_forces_ignorable
    (path part : String) (hmem : part ∈ pathParts path)
    (hdir : part ∈ ignore_dirs) : should_ignore_path path = true := by
  unfold should_ignore_path
  have h1 : (pathParts path).any (fun part => ignore_dirs.contains part) = true := by
    rw [List.any_eq_true]
    exact ⟨part, hmem, by simpa using hdir⟩
  simp only [h1, Bool.true_or]

theorem ignored_directory_segment_forces_ignorable_witness :
    should_ignore_path "repo/node_modules/index.md" = true :=
  ignored_directory_segment_forces_ignorable "repo/node_modules/index.md"
    "node_modules" (by decide) (by decide)

/-- C2 (amended): a successfully analyzed file retains full content exactly
under the code's condition — "readme" as a case-insensitive substring of
the file name, or "license"/"changelog"/"contributing" as case-insensitive
prefixes, or a prose/markup language, or content shorter than 5000
characters; otherwise only the 500-character preview (with its truncation
marker) is stored. -/
theorem content_retention_policy
    (extract : Option String → String → Extraction)
    (fp rp : String) (size : Nat) (decoded : Option String) (r : FileRecord)
    (h : analyze_file extract fp rp size decoded = some r) :
    ∃ c, decoded = some c ∧
      r.content =
        (if retains_full_content fp (get_file_language fp) c then some c
         else none) ∧
      r.content_preview =
        String.mk (c.toList.take 500) ++
          (if c.length > 500 then "..." else "") := by
  obtain ⟨c, hc, hr⟩ := analyze_file_some_elim extract fp rp size decoded r h
  subst hr
  exact ⟨c, hc, rfl, rfl⟩

theorem content_retention_policy_witness :
    ∃ c, (some "hello" : Option String) = some c ∧
      (FileRecord.mk "README.md" (some "markdown") 10 1 "hello" (some "hello")
          [] [] []).content =
        (if retains_full_content "repo/README.md"
            (get_file_language "repo/README.md") c then some c
         else none) ∧
      (FileRecord.mk "README.md" (some "markdown") 10 1 "hello" (some "hello")
          [] [] []).content_preview =
        String.mk (c.toList.take 500) ++
          (if c.length > 500 then "..." else "") :=
  content_retention_policy trivial_extraction "repo/README.md" "README.md" 10
    (some "hello") _ rfl

/-- Python content of exactly 5000 characters, long enough to miss the
small-file disjunct of the retention policy. -/
def c2_long_content : String := String.mk (List.replicate 5000 'a')


theorem c2_long_content_length : c2_long_content.length = 5000 := by
  show (List.replicate 5000 'a').length = 5000
  rw [List.length_replicate]

theorem c2_retains_false :
    retains_full_content "repo/my_license.py"
      (get_file_language "repo/my_license.py") c2_long_content = false := by
  unfold retains_full_content
  simp only [c2_long_content_length]
  decide

/-- C2 (counterexample): `my_license.py` contains "license" as a substring
but does not start with it, so for a python file of 5000 characters the
retention condition as the claim words it (substring test) holds, while the
code stores no full content — only the preview. -/
theorem content_retention_substring_counterexample :
    spec_retains_full_content "repo/my_license.py"
        (get_file_language "repo/my_license.py") c2_long_content = true ∧
    (analyze_file trivial_extraction "repo/my_license.py" "my_license.py"
          6000 (some c2_long_content)).map (fun r => r.content) =
      some none := by
  constructor
  · rfl
  · unfold analyze_file
    rw [if_neg (by norm_num : ¬(6000 > 1024 * 1024))]
    simp only [Option.map_some]
    simp only [c2_retains_false]
    simp

/-- The 30-line `main.py` of the ranking scenario: python, two functions,
no classes. -/
def c8_main_py : FileRecord :=
  { path := "main.py", language := some "python", size := 800, lines := 30,
    content_preview := "", content := none,
    functions := [⟨"run", 1, [], ""⟩, ⟨"helper", 5, [], ""⟩],
    classes := [], imports := [] }

/-- The 500-line `utils_helpers.py` of the ranking scenario: python, no
functions, no classes. -/
def c8_utils_helpers : FileRecord :=
  { path := "utils_helpers.py", language := some "python", size := 12000,
    lines := 500, content_preview := "", content := none,
    functions := [], classes := [], imports := [] }

/-- C8: the importance score, which is a deterministic function of the
record, gives the 30-line two-function `main.py` (50 keyword + 20 language
+ 6 functions + 15 root = 91) strictly more than the 500-line barren
`utils_helpers.py` (20 language + 10 size + 15 root = 45), so the ranking
places `main.py` first. -/
theorem importance_ranking_main_over_utils :
    calculate_importance_score c8_main_py = 91 ∧
    calculate_importance_score c8_utils_helpers = 45 ∧
    calculate_importance_score c8_utils_helpers <
      calculate_importance_score c8_main_py ∧
    get_important_files [c8_utils_helpers, c8_main_py] =
      [c8_main_py, c8_utils_helpers] := by
  refine ⟨rfl, rfl, by decide, rfl⟩

/-- C9: when any step of the answering pipeline fails, `answer_question`
returns the apology string and the empty context, and the conversation
history is exactly what it was before the call — failed exchanges are
never recorded. -/
theorem failed_answer_preserves_history
    (ex : String → Except String QuestionContext)
    (prep : QuestionContext → String → Except String String)
    (gen : String → String → Except String String)
    (history : List ConvEntry) (question err : String)
    (hfail : qa_pipeline ex prep gen question = .error err) :
    answer_question ex prep gen history question =
      (apology_message err, empty_question_context, history) := by
  unfold answer_question
  rw [hfail]

theorem failed_answer_preserves_history_witness :
    answer_question (fun _ => .ok empty_question_context)
        (fun _ _ => .ok "context") (fun _ _ => .error "boom")
        [⟨"old q", "old a", empty_question_context⟩] "new q" =
      (apology_message "boom", empty_question_context,
        [⟨"old q", "old a", empty_question_context⟩]) :=
  failed_answer_preserves_history (fun _ => .ok empty_question_context)
    (fun _ _ => .ok "context") (fun _ _ => .error "boom")
    [⟨"old q", "old a", empty_question_context⟩] "new q" "boom" rfl

theorem answer_question_history_le
    (ex : String → Except String QuestionContext)
    (prep : QuestionContext → String → Except String String)
    (gen : String → String → Except String String)
    (history : List ConvEntry) (question : String)
    (hh : history.length ≤ 10) :
    ((answer_question ex prep gen history question).2.2).length ≤ 10 := by
  unfold answer_question
  cases hp : qa_pipeline ex prep gen question with
  | error e => simpa using hh
  | ok p =>
    obtain ⟨ans, ctx⟩ := p
    simp only []
    split
    · simp only [List.length_drop, List.length_append, List.length_cons,
        List.length_nil]
      omega
    · next hlen =>
      simp only [List.length_append, List.length_cons, List.length_nil]
      simp only [List.length_append, List.length_cons, List.length_nil,
        not_lt, gt_iff_lt] at hlen
      omega

theorem run_questions_length_le
    (ex : String → Except String QuestionContext)
    (prep : QuestionContext → String → Except String String)
    (gen : String → String → Except String String) :
    ∀ (qs : List String) (h : List ConvEntry), h.length ≤ 10 →
      (qs.foldl (fun h q => (answer_question ex prep gen h q).2.2) h).length
        ≤ 10 := by
  intro qs
  induction qs with
  | nil => intro h hh; simpa using hh
  | cons q qs ih =>
    intro h hh
    exact ih _ (answer_question_history_le ex prep gen h q hh)

/-- C6: the conversation history holds at most 10 entries after any number
of completed question/answer cycles, and when an 11th entry would be added
the oldest entry is evicted: the new history is the old one minus its
first entry, with the new exchange appended at the end (FIFO order
preserved). -/
theorem conversation_history_bounded_fifo
    (ex : String → Except String QuestionContext)
    (prep : QuestionContext → String → Except String String)
    (gen : String → String → Except String String)
    (questions : List String) :
    (run_questions ex prep gen questions).length ≤ 10 ∧
    (∀ (h : List ConvEntry) (q answer : String) (ctx : QuestionContext),
      h.length = 10 → qa_pipeline ex prep gen q = .ok (answer, ctx) →
      (answer_question ex prep gen h q).2.2 =
        h.drop 1 ++ [⟨q, answer, ctx⟩]) := by
  constructor
  · exact run_questions_length_le ex prep gen questions [] (by simp)
  · intro h q answer ctx hlen hok
    unfold answer_question
    rw [hok]
    simp only []
    split
    · next hc =>
      have hd : (h ++ [(⟨q, answer, ctx⟩ : ConvEntry)]).length - 10 = 1 := by
        simp [hlen]
      rw [hd]
      exact List.drop_append_of_le_length (by omega)
    · next hc =>
      exfalso
      apply hc
      simp [hlen]

/-- Full conversation history of 10 entries, at the eviction boundary. -/
def c6_ten_history : List ConvEntry :=
  List.replicate 10 ⟨"q0", "a0", empty_question_context⟩

theorem conversation_history_bounded_fifo_witness :
    (answer_question (fun _ => .ok empty_question_context)
        (fun _ _ => .ok "rendered context") (fun _ _ => .ok "an answer")
        c6_ten_history "q11").2.2 =
      c6_ten_history.drop 1 ++ [⟨"q11", "an answer", empty_question_context⟩] :=
  (conversation_history_bounded_fifo (fun _ => .ok empty_question_context)
      (fun _ _ => .ok "rendered context") (fun _ _ => .ok "an answer") []).2
    c6_ten_history "q11" "an answer" empty_question_context rfl rfl

/-- Sum of the per-language file counts of the language statistics dict. -/
def langFilesTotal (m : List (String × LangStats)) : Nat :=
  (m.map (fun p => p.2.files)).sum

/-- Sum of the per-language line counts of the language statistics dict. -/
def langLinesTotal (m : List (String × LangStats)) : Nat :=
  (m.map (fun p => p.2.lines)).sum

theorem bumpLanguage_filesTotal (lang : String) (n : Nat) :
    ∀ m, langFilesTotal (bumpLanguage lang n m) = langFilesTotal m + 1 := by
  intro m
  induction m with
  | nil => simp [bumpLanguage, langFilesTotal]
  | cons p rest ih =>
    obtain ⟨k, s⟩ := p
    by_cases hk : k = lang
    · simp [bumpLanguage, hk, langFilesTotal]
      omega
    · simp [bumpLanguage, hk, langFilesTotal] at ih ⊢
      omega

theorem bumpLanguage_linesTotal (lang : String) (n : Nat) :
    ∀ m, langLinesTotal (bumpLanguage lang n m) = langLinesTotal m + n := by
  intro m
  induction m with
  | nil => simp [bumpLanguage, langLinesTotal]
  | cons p rest ih =>
    obtain ⟨k, s⟩ := p
    by_cases hk : k = lang
    · simp [bumpLanguage, hk, langLinesTotal]
      omega
    · simp [bumpLanguage, hk, langLinesTotal] at ih ⊢
      omega

/-- Bookkeeping invariant of the analysis loop: the file list length
matches `analyzed_files`, and the language buckets account for exactly the
analyzed files that have a language, in count and in lines. -/
def analysis_inv (a : RepositoryAnalysis) : Prop :=
  a.files.length = a.analyzed_files ∧
  langFilesTotal a.languages +
      (a.files.filter (fun f => f.language.isNone)).length =
    a.analyzed_files ∧
  langLinesTotal a.languages +
      ((a.files.filter (fun f => f.language.isNone)).map
          (fun f => f.lines)).sum =
    a.summary.total_lines

theorem aggregate_file_inv (a : RepositoryAnalysis)
    (res : Option FileRecord) (h : analysis_inv a) :
    analysis_inv (aggregate_file a res) := by
  cases res with
  | none => simpa [aggregate_file] using h
  | some fi =>
    obtain ⟨h1, h2, h3⟩ := h
    cases hl : fi.language with
    | some lang =>
      refine ⟨?_, ?_, ?_⟩ <;>
        simp [aggregate_file, hl, List.filter_append, bumpLanguage_filesTotal,
          bumpLanguage_linesTotal, h1, h2, h3] <;>
        omega
    | none =>
      refine ⟨?_, ?_, ?_⟩ <;>
        simp [aggregate_file, hl, List.filter_append, h1, h2, h3] <;>
        omega

theorem foldl_aggregate_inv (results : List (Option FileRecord)) :
    ∀ a, analysis_inv a → analysis_inv (results.foldl aggregate_file a) := by
  induction results with
  | nil => intro a h; simpa using h
  | cons res rest ih =>
    intro a h
    exact ih _ (aggregate_file_inv a res h)

theorem foldl_aggregate_total_files (results : List (Option FileRecord)) :
    ∀ a, (results.foldl aggregate_file a).total_files = a.total_files := by
  induction results with
  | nil => intro a; rfl
  | cons res rest ih =>
    intro a
    rw [List.foldl_cons, ih]
    cases res <;> rfl

theorem foldl_aggregate_files_eq (results : List (Option FileRecord)) :
    ∀ a, (results.foldl aggregate_file a).files =
      a.files ++ results.filterMap id := by
  induction results with
  | nil => intro a; simp
  | cons res rest ih =>
    intro a
    cases res with
    | none => simpa [aggregate_file] using ih a
    | some fi =>
      rw [List.foldl_cons]
      show (rest.foldl aggregate_file _).files = _
      rw [ih]
      simp [aggregate_file]

/-- C10: in every analysis produced by a run, the per-language line counts
sum to the total minus exactly the lines of analyzed files with no language
mapping, so the per-language sums never exceed the aggregate totals; a file
whose extension is unmapped still lands in `files` (hence in
`analyzed_files` and `total_lines`) but in no language bucket, and every
stored record's language is exactly what the extension table yields for its
path. -/
theorem language_totals_invariant
    (extract : Option String → String → Extraction)
    (repo_path : String) (walked : List RawFile) (A : RepositoryAnalysis)
    (hA : A = analyze_repository extract repo_path walked) :
    langLinesTotal A.languages +
        ((A.files.filter (fun f => f.language.isNone)).map
            (fun f => f.lines)).sum =
      A.summary.total_lines ∧
    langFilesTotal A.languages +
        (A.files.filter (fun f => f.language.isNone)).length =
      A.analyzed_files ∧
    langLinesTotal A.languages ≤ A.summary.total_lines ∧
    langFilesTotal A.languages ≤ A.analyzed_files ∧
    A.files.length = A.analyzed_files ∧
    ∀ r ∈ A.files, ∃ rf, rf ∈ walked ∧
      analyze_file extract rf.path rf.rel_path rf.size rf.decoded = some r ∧
      r.language = get_file_language rf.path := by
  subst hA
  have hinv :
      analysis_inv (analyze_repository extract repo_path walked) := by
    apply foldl_aggregate_inv
    simp [analysis_inv, langFilesTotal, langLinesTotal]
  obtain ⟨h1, h2, h3⟩ := hinv
  refine ⟨h3, h2, by omega, by omega, h1, ?_⟩
  intro r hr
  have hfe := foldl_aggregate_files_eq
    (walked.map
      (fun rf => analyze_file extract rf.path rf.rel_path rf.size rf.decoded))
  rw [show (analyze_repository extract repo_path walked).files =
      (walked.map (fun rf =>
        analyze_file extract rf.path rf.rel_path rf.size rf.decoded)).filterMap
        id from by simpa using hfe _] at hr
  rw [List.mem_filterMap] at hr
  obtain ⟨o, ho, hor⟩ := hr
  rw [List.mem_map] at ho
  obtain ⟨rf, hrf, hfn⟩ := ho
  simp only [id] at hor
  subst hor
  refine ⟨rf, hrf, hfn, ?_⟩
  obtain ⟨c, hc, hrec⟩ := analyze_file_some_elim extract rf.path rf.rel_path
    rf.size rf.decoded r hfn
  subst hrec
  rfl

/-- Survivor list with one analyzable python file, one extension-less
license file, and one file over the 1 MiB limit. -/
def c10_walked : List RawFile :=
  [⟨"repo/a.py", "a.py", 10, some "x = 1\n"⟩,
   ⟨"repo/LICENSE", "LICENSE", 3, some "mit"⟩,
   ⟨"repo/huge.py", "huge.py", 2097152, some ""⟩]

theorem language_totals_invariant_witness :
    langLinesTotal (analyze_repository trivial_extraction "repo"
          c10_walked).languages +
        (((analyze_repository trivial_extraction "repo"
              c10_walked).files.filter (fun f => f.language.isNone)).map
            (fun f => f.lines)).sum =
      (analyze_repository trivial_extraction "repo"
          c10_walked).summary.total_lines ∧
    langFilesTotal (analyze_repository trivial_extraction "repo"
          c10_walked).languages +
        ((analyze_repository trivial_extraction "repo"
            c10_walked).files.filter (fun f => f.language.isNone)).length =
      (analyze_repository trivial_extraction "repo"
          c10_walked).analyzed_files ∧
    langLinesTotal (analyze_repository trivial_extraction "repo"
          c10_walked).languages ≤
      (analyze_repository trivial_extraction "repo"
          c10_walked).summary.total_lines ∧
    langFilesTotal (analyze_repository trivial_extraction "repo"
          c10_walked).languages ≤
      (analyze_repository trivial_extraction "repo"
          c10_walked).analyzed_files ∧
    (analyze_repository trivial_extraction "repo" c10_walked).files.length =
      (analyze_repository trivial_extraction "repo"
          c10_walked).analyzed_files ∧
    ∀ r ∈ (analyze_repository trivial_extraction "repo" c10_walked).files,
      ∃ rf, rf ∈ c10_walked ∧
        analyze_file trivial_extraction rf.path rf.rel_path rf.size
            rf.decoded = some r ∧
        r.language = get_file_language rf.path :=
  language_totals_invariant trivial_extraction "repo" c10_walked
    (analyze_repository trivial_extraction "repo" c10_walked) rfl

/-- Survivor list with one analyzable file and one file over the 1 MiB
limit, which the walk counts but the per-file analysis skips. -/
def c1_walked : List RawFile :=
  [⟨"repo/a.py", "a.py", 10, some "x = 1\n"⟩,
   ⟨"repo/huge.py", "huge.py", 2097152, some ""⟩]

/-- C1 (counterexample): with a skipped file present, the "Complete File
Structure" section of a "structure"-intent context enumerates one line per
*analyzed* file — here a single line — while `total_files` is 2, so the
enumerated count does not equal `total_files`. -/
theorem file_structure_count_counterexample :
    (file_structure_lines
        (analyze_repository trivial_extraction "repo" c1_walked)).length =
      1 ∧
    (analyze_repository trivial_extraction "repo" c1_walked).total_files =
      2 ∧
    file_structure_section "structure"
        (analyze_repository trivial_extraction "repo" c1_walked) =
      ["Complete File Structure:", "- a.py (python, 10 bytes, 2 lines)",
       "\nTotal files: 2, Analyzed files: 1", ""] := by
  refine ⟨rfl, rfl, ?_⟩
  decide

/-- C1 (amended): for "structure"/"file" intent the "Complete File
Structure" section enumerates exactly one line per *successfully analyzed*
file, so the enumerated count equals `analyzed_files`, which is at most —
and not always equal to — `total_files` (files over 1 MiB or undecodable
are counted by the walk but dropped from the section). -/
theorem file_structure_enumerates_analyzed_files
    (extract : Option String → String → Extraction)
    (repo_path : String) (walked : List RawFile) (A : RepositoryAnalysis)
    (hA : A = analyze_repository extract repo_path walked) :
    (file_structure_lines A).length = A.analyzed_files ∧
    A.analyzed_files ≤ A.total_files ∧
    (A.files ≠ [] →
      file_structure_section "structure" A =
        "Complete File Structure:" ::
          (file_structure_lines A ++
            [s!"\nTotal files: {A.total_files}, Analyzed files: {A.analyzed_files}",
             ""])) := by
  have hinv : analysis_inv A := by
    rw [hA]
    apply foldl_aggregate_inv
    simp [analysis_inv, langFilesTotal, langLinesTotal]
  obtain ⟨h1, h2, h3⟩ := hinv
  refine ⟨?_, ?_, ?_⟩
  · simpa [file_structure_lines] using h1
  · have hfiles : A.files =
        walked.filterMap (fun rf =>
          analyze_file extract rf.path rf.rel_path rf.size rf.decoded) := by
      rw [hA]
      unfold analyze_repository
      rw [foldl_aggregate_files_eq]
      simp [List.filterMap_map]
    have htot : A.total_files = walked.length := by
      rw [hA]
      simpa using foldl_aggregate_total_files _ _
    have hle := List.length_filterMap_le
      (fun rf =>
        analyze_file extract rf.path rf.rel_path rf.size rf.decoded) walked
    rw [← h1, hfiles, htot]
    exact hle
  · intro hne
    unfold file_structure_section
    rw [if_pos (Or.inl rfl)]
    rw [if_neg (by simpa [List.isEmpty_iff] using hne)]

theorem file_structure_enumerates_analyzed_files_witness :
    (file_structure_lines
        (analyze_repository trivial_extraction "repo" c10_walked)).length =
      (analyze_repository trivial_extraction "repo"
          c10_walked).analyzed_files ∧
    (analyze_repository trivial_extraction "repo" c10_walked).analyzed_files
        ≤
      (analyze_repository trivial_extraction "repo" c10_walked).total_files ∧
    ((analyze_repository trivial_extraction "repo" c10_walked).files ≠ [] →
      file_structure_section "structure"
          (analyze_repository trivial_extraction "repo" c10_walked) =
        "Complete File Structure:" ::
          (file_structure_lines
              (analyze_repository trivial_extraction "repo" c10_walked) ++
            ["\nTotal files: 3, Analyzed files: 2", ""])) :=
  file_structure_enumerates_analyzed_files trivial_extraction "repo"
    c10_walked (analyze_repository trivial_extraction "repo" c10_walked) rfl

theorem lookup_pushBucket_same {α : Type} (k : String) (e : α) :
    ∀ m, (pushBucket k e m).lookup k = some (lookupBucket m k ++ [e]) := by
  intro m
  induction m with
  | nil => simp [pushBucket, lookupBucket, List.lookup]
  | cons p rest ih =>
    obtain ⟨k', l⟩ := p
    by_cases hk : k' = k
    · subst hk
      simp [pushBucket, lookupBucket, List.lookup]
    · simp only [pushBucket, if_neg hk, List.lookup]
      rw [show (k == k') = false by simpa using Ne.symm hk]
      simp only [lookupBucket, List.lookup] at ih ⊢
      rw [show (k == k') = false by simpa using Ne.symm hk]
      exact ih

theorem lookup_pushBucket_ne {α : Type} (k k' : String) (e : α)
    (hne : k' ≠ k) :
    ∀ m, (pushBucket k e m : List (String × List α)).lookup k' =
      m.lookup k' := by
  intro m
  induction m with
  | nil =>
    simp only [pushBucket, List.lookup]
    rw [show (k' == k) = false by simpa using hne]
  | cons p rest ih =>
    obtain ⟨k'', l⟩ := p
    by_cases hk : k'' = k
    · subst hk
      simp only [pushBucket, if_pos rfl, List.lookup]
      rw [show (k' == k'') = false by simpa using hne]
    · simp only [pushBucket, if_neg hk, List.lookup]
      by_cases hq : k' = k''
      · subst hq
        simp
      · rw [show (k' == k'') = false by simpa using hq]
        exact ih

/-- Entries one file contributes to the bucket of key `k`: one per function
whose lowercased name is `k`, in order, each carrying the file's path. -/
def fileFuncEntries (path : String) (funcs : List FunctionRecord)
    (k : String) : List FuncEntry :=
  (funcs.filter (fun g => lowerStr g.name == k)).map (fun g => ⟨path, g⟩)

/-- Entries the whole analysis contributes to the bucket of key `k`, in
file order then function order. -/
def analysisFuncEntries : List FileRecord → String → List FuncEntry
  | [], _ => []
  | f :: fs, k =>
    fileFuncEntries f.path f.functions k ++ analysisFuncEntries fs k

theorem indexFileFunctions_bucket (path : String)
    (funcs : List FunctionRecord) (k : String) (hk : k ≠ "") :
    ∀ m, lookupBucket (indexFileFunctions path funcs m) k =
      lookupBucket m k ++ fileFuncEntries path funcs k := by
  induction funcs with
  | nil => intro m; simp [indexFileFunctions, fileFuncEntries]
  | cons g gs ih =>
    intro m
    have hstep : indexFileFunctions path (g :: gs) m =
        indexFileFunctions path gs
          (if lowerStr g.name = "" then m
           else pushBucket (lowerStr g.name) ⟨path, g⟩ m) := by
      simp only [indexFileFunctions, List.foldl_cons]
    rw [hstep]
    by_cases hg : lowerStr g.name = ""
    · rw [if_pos hg, ih]
      have hf : (lowerStr g.name == k) = false := by
        rw [hg]
        exact beq_eq_false_iff_ne.mpr (Ne.symm hk)
      simp [fileFuncEntries, List.filter_cons, hf]
    · rw [if_neg hg, ih]
      by_cases hgk : lowerStr g.name = k
      · subst hgk
        unfold lookupBucket
        rw [lookup_pushBucket_same (lowerStr g.name)
          (⟨path, g⟩ : FuncEntry) m]
        simp [fileFuncEntries, List.filter_cons, lookupBucket]
      · have hb : List.lookup k
            (pushBucket (lowerStr g.name) (⟨path, g⟩ : FuncEntry) m) =
            List.lookup k m :=
          lookup_pushBucket_ne (lowerStr g.name) k ⟨path, g⟩
            (Ne.symm hgk) m
        have hf : (lowerStr g.name == k) = false :=
          beq_eq_false_iff_ne.mpr hgk
        unfold lookupBucket
        rw [hb]
        simp [fileFuncEntries, List.filter_cons, hf]

theorem build_function_index_fold_bucket (k : String) (hk : k ≠ "") :
    ∀ (files : List FileRecord) (m : List (String × List FuncEntry)),
      lookupBucket
          (files.foldl (fun m f => indexFileFunctions f.path f.functions m)
            m) k =
        lookupBucket m k ++ analysisFuncEntries files k := by
  intro files
  induction files with
  | nil => intro m; simp [analysisFuncEntries]
  | cons f fs ih =>
    intro m
    rw [List.foldl_cons, ih, indexFileFunctions_bucket f.path f.functions k hk,
      List.append_assoc]
    rfl

theorem build_function_index_bucket (files : List FileRecord) (k : String)
    (hk : k ≠ "") :
    lookupBucket (build_function_index files) k =
      analysisFuncEntries files k := by
  unfold build_function_index
  rw [build_function_index_fold_bucket k hk files []]
  simp [lookupBucket, List.lookup]

theorem mem_analysisFuncEntries (k : String) (e : FuncEntry) :
    ∀ files : List FileRecord,
      e ∈ analysisFuncEntries files k ↔
        ∃ f, f ∈ files ∧ ∃ g, g ∈ f.functions ∧ lowerStr g.name = k ∧
          e = ⟨f.path, g⟩ := by
  intro files
  induction files with
  | nil => simp [analysisFuncEntries]
  | cons f fs ih =>
    simp only [analysisFuncEntries, List.mem_append, ih, fileFuncEntries,
      List.mem_map, List.mem_filter, beq_iff_eq, List.mem_cons]
    constructor
    · rintro (⟨g, ⟨hg, hgk⟩, rfl⟩ | ⟨fo, hfo, go, hgo, hk2, rfl⟩)
      · exact ⟨f, Or.inl rfl, g, hg, hgk, rfl⟩
      · exact ⟨fo, Or.inr hfo, go, hgo, hk2, rfl⟩
    · rintro ⟨fo, hfo | hfo, go, hgo, hk2, rfl⟩
      · subst hfo
        exact Or.inl ⟨go, ⟨hgo, hk2⟩, rfl⟩
      · exact Or.inr ⟨fo, hfo, go, hgo, hk2, rfl⟩

/-- C5 (amended): every *non-empty* function name of any record of the
analysis is present, lowercased, as a key of the built function index, and
every entry of its bucket carries the path of the record that contributed
that function.  (A function whose name is the empty string — produced, for
example, for a bare `#` markdown heading — is skipped by the builder.) -/
theorem function_index_round_trip (files : List FileRecord)
    (f : FileRecord) (g : FunctionRecord) (hf : f ∈ files)
    (hg : g ∈ f.functions) (hne : lowerStr g.name ≠ "") :
    (build_function_index files).lookup (lowerStr g.name) ≠ none ∧
    ∀ e ∈ lookupBucket (build_function_index files) (lowerStr g.name),
      ∃ fo, fo ∈ files ∧ ∃ go, go ∈ fo.functions ∧
        lowerStr go.name = lowerStr g.name ∧ e = ⟨fo.path, go⟩ := by
  have hb := build_function_index_bucket files (lowerStr g.name) hne
  constructor
  · intro hnone
    have hempty :
        lookupBucket (build_function_index files) (lowerStr g.name) = [] := by
      simp [lookupBucket, hnone]
    rw [hb] at hempty
    have hmem : (⟨f.path, g⟩ : FuncEntry) ∈
        analysisFuncEntries files (lowerStr g.name) :=
      (mem_analysisFuncEntries (lowerStr g.name) ⟨f.path, g⟩ files).mpr
        ⟨f, hf, g, hg, rfl, rfl⟩
    rw [hempty] at hmem
    simp at hmem
  · intro e he
    rw [hb] at he
    exact (mem_analysisFuncEntries (lowerStr g.name) e files).mp he

/-- Sample record with a single named function, for the index round-trip
witness. -/
def c5_run_file : FileRecord :=
  { path := "src/app.py", language := some "python", size := 20, lines := 3,
    content_preview := "", content := none,
    functions := [⟨"Run", 1, [], ""⟩], classes := [], imports := [] }

theorem function_index_round_trip_witness :
    (build_function_index [c5_run_file]).lookup
        (lowerStr (FunctionRecord.mk "Run" 1 [] "").name) ≠ none ∧
    ∀ e ∈ lookupBucket (build_function_index [c5_run_file])
        (lowerStr (FunctionRecord.mk "Run" 1 [] "").name),
      ∃ fo, fo ∈ [c5_run_file] ∧ ∃ go, go ∈ fo.functions ∧
        lowerStr go.name = lowerStr (FunctionRecord.mk "Run" 1 [] "").name ∧
        e = ⟨fo.path, go⟩ :=
  function_index_round_trip [c5_run_file] c5_run_file ⟨"Run", 1, [], ""⟩
    (by decide) (by decide) (by decide)

/-- The record `analyze_file` produces for a one-character markdown file
`notes.md` whose content is the bare heading line `#`: the header strategy
yields one pseudo-function whose name is the empty string. -/
def markdown_hash_file : FileRecord :=
  { path := "notes.md", language := some "markdown", size := 1, lines := 1,
    content_preview := "#", content := some "#",
    functions := [{ name := "", line := 1, args := [], kind := "header_h1" }],
    classes := [], imports := [] }

/-- C5 (counterexample): the markdown header strategy produces a function
record named `""` for a bare `#` line, and the index builder skips empty
names, so this function name is not a key of the function mapping. -/
theorem empty_function_name_not_indexed :
    analyze_file markdown_extraction "notes.md" "notes.md" 1 (some "#") =
      some markdown_hash_file ∧
    markdown_hash_file.functions.map (fun g => g.name) = [""] ∧
    (build_function_index [markdown_hash_file]).lookup (lowerStr "") =
      none := by
  refine ⟨?_, rfl, rfl⟩
  rfl

/-- C7 (amended): when the lowercased question contains "readme" and none
of the documentation keywords ("documentation"/"docs"/"doc"), the readme
override fires last: the extracted context's intent is "readme" and its
file selection includes every indexed file whose (lowercased) path contains
"readme".  (When a documentation keyword is also present, the later
documentation override replaces the intent with "documentation".) -/
theorem readme_intent_and_files (idx : SearchIndex) (question : String)
    (h1 : strContains (lowerStr question) "readme" = true)
    (h2 : (["documentation", "docs", "doc"].any
        (fun k => strContains (lowerStr question) k)) = false) :
    (extract_relevant_context idx question).type = "readme" ∧
    ∀ p ∈ idx.files, strContains (lowerStr p.1) "readme" = true →
      p.2 ∈ (extract_relevant_context idx question).files := by
  constructor
  · unfold extract_relevant_context
    simp [h1, h2]
  · intro p hp hread
    unfold extract_relevant_context
    simp [h1, h2]
    right
    exact ⟨p.1, by simpa using hp, hread⟩

/-- A loaded index holding exactly one README file under its lowercased
path key. -/
def c7_idx : SearchIndex :=
  ⟨[("readme.md",
     { path := "README.md", language := some "markdown", size := 5,
       lines := 1, content_preview := "hello", content := some "hello",
       functions := [], classes := [], imports := [] })], [], [], []⟩

theorem readme_intent_and_files_witness :
    (extract_relevant_context c7_idx "What is in the readme?").type =
      "readme" ∧
    ∀ p ∈ c7_idx.files, strContains (lowerStr p.1) "readme" = true →
      p.2 ∈ (extract_relevant_context c7_idx "What is in the readme?").files :=
  readme_intent_and_files c7_idx "What is in the readme?" (by decide)
    (by decide)

/-- C7 (counterexample): the documentation override runs after the readme
override, so a question containing both "readme" and a documentation
keyword ends with intent "documentation", not "readme". -/
theorem readme_intent_overridden_by_documentation :
    strContains (lowerStr "readme docs") "readme" = true ∧
    (extract_relevant_context ⟨[], [], [], []⟩ "readme docs").type =
      "documentation" := by
  exact ⟨rfl, rfl⟩
